import Mathlib

/-!
Verification of the correspondence-resolution and rigid-registration pipeline
in `autocad_integration.py` (functions `map_points`, `remove_outliers`,
`kabsch_transform`, `main`).

Modelling conventions:
* Coordinates are rationals (`ℚ`); the Python code uses binary floats, but every
  claim under scrutiny concerns the algebraic structure of the computation, not
  rounding behaviour.
* The code is 2-dimensional throughout (`real_points`/`ideal_points` are N×2
  arrays, the cross-covariance is 2×2), so matrices are embedded as an explicit
  2×2 structure `Mat2` and points as `Vec2`.
* `np.linalg.svd` and sklearn's `RANSACRegressor` are external library calls;
  they enter the embedding as explicit functional parameters (`svd` returning
  the pair `(U, Vᵗ)` — the singular values are discarded by the source, which
  binds them to `_`; `ransac` returning `some mask` for a successful fit with
  inlier mask `mask`, or `none` when `fit` raises, e.g. because no valid
  consensus set exists or fewer than `min_samples` rows are supplied).
* Python `try/except` blocks returning sentinel values are embedded by making
  the happy path an `Except`/`Option` value and the wrapper return the sentinel.
* Python compares Euclidean distances to thresholds (`distance_to(...) < 5.0`);
  since squaring is monotone on nonnegatives, the embedding uses the squared
  distance `dist2` with the squared threshold `25`, which decides the same
  comparisons and the same argmin, and stays inside `ℚ`.
-/

namespace Reconstrucao

/-- A 2D point/vector with rational coordinates (embeds the `(x, y)` tuples and
length-2 numpy rows of the source). -/
structure Vec2 where
  x : ℚ
  y : ℚ
deriving DecidableEq, Repr

def Vec2.add (p q : Vec2) : Vec2 := ⟨p.x + q.x, p.y + q.y⟩

def Vec2.sub (p q : Vec2) : Vec2 := ⟨p.x - q.x, p.y - q.y⟩

/-- Squared Euclidean distance between two points. The source compares plain
Euclidean distances against thresholds; comparing squares against squared
thresholds is equivalent. -/
def dist2 (p q : Vec2) : ℚ := (p.x - q.x) ^ 2 + (p.y - q.y) ^ 2

/-- A 2×2 matrix, rows `(a b)` and `(c d)` (embeds the 2×2 numpy arrays of the
source). -/
structure Mat2 where
  a : ℚ
  b : ℚ
  c : ℚ
  d : ℚ
deriving DecidableEq, Repr

def Mat2.mul (M N : Mat2) : Mat2 :=
  ⟨M.a * N.a + M.b * N.c, M.a * N.b + M.b * N.d,
   M.c * N.a + M.d * N.c, M.c * N.b + M.d * N.d⟩

def Mat2.mulVec (M : Mat2) (v : Vec2) : Vec2 :=
  ⟨M.a * v.x + M.b * v.y, M.c * v.x + M.d * v.y⟩

def Mat2.det (M : Mat2) : ℚ := M.a * M.d - M.b * M.c

/-- Negate the last row of a 2×2 matrix (the source's `Vt[-1, :] *= -1`). -/
def Mat2.negLastRow (M : Mat2) : Mat2 := ⟨M.a, M.b, -M.c, -M.d⟩

def Mat2.id2 : Mat2 := ⟨1, 0, 0, 1⟩

def Mat2.add (M N : Mat2) : Mat2 := ⟨M.a + N.a, M.b + N.b, M.c + N.c, M.d + N.d⟩

def Mat2.zero : Mat2 := ⟨0, 0, 0, 0⟩

/-- Componentwise mean of a list of points (`np.mean(pts, axis=0)`). -/
def centroid (pts : List Vec2) : Vec2 :=
  ⟨(pts.map Vec2.x).sum / (pts.length : ℚ), (pts.map Vec2.y).sum / (pts.length : ℚ)⟩

/-- Cross-covariance `H = (ideal_points - centroid_ideal).T @ (real_points - centroid_real)`:
entry `(r, c)` of `H` is the sum over all rows `i` of
`(ideal[i] - cI)[r] * (real[i] - cR)[c]`. -/
def crossCov (real ideal : List Vec2) (cR cI : Vec2) : Mat2 :=
  ⟨(List.zipWith (fun q p => (q.x - cI.x) * (p.x - cR.x)) ideal real).sum,
   (List.zipWith (fun q p => (q.x - cI.x) * (p.y - cR.y)) ideal real).sum,
   (List.zipWith (fun q p => (q.y - cI.y) * (p.x - cR.x)) ideal real).sum,
   (List.zipWith (fun q p => (q.y - cI.y) * (p.y - cR.y)) ideal real).sum⟩

/-- The source's `kabsch_transform(real_points, ideal_points)`.  Here `svd` stands
for `np.linalg.svd`, returning `(U, Vᵗ)` (the singular values are bound to `_`
and discarded by the source).  The source raises `ValueError` on empty input and
catches every exception, returning `(None, None)`; numpy also raises a shape
error when the two arrays have different row counts, which the same handler
turns into `(None, None)` — both failure paths are embedded as `none`. -/
def kabsch_transform (svd : Mat2 → Mat2 × Mat2) (real ideal : List Vec2) :
    Option (Mat2 × Vec2) :=
  if real.length = 0 ∨ ideal.length = 0 then none
  else if real.length ≠ ideal.length then none
  else
    let cR := centroid real
    let cI := centroid ideal
    let H := crossCov real ideal cR cI
    let UVt := svd H
    let R0 := Mat2.mul UVt.1 UVt.2
    let R := if R0.det < 0 then Mat2.mul UVt.1 (Mat2.negLastRow UVt.2) else R0
    let t := Vec2.sub cI (Mat2.mulVec R cR)
    some (R, t)

/-! ### Labels

The source builds labels with the f-string `f"V{poly_idx+1}-{vert_idx+1}"`.
Decimal rendering of naturals is embedded explicitly (fuel-structured so that
the kernel can evaluate it). -/

/-- The decimal digit character for `n < 10` (Python renders indices in
decimal). -/
def digitCh : Nat → Char
  | 0 => '0' | 1 => '1' | 2 => '2' | 3 => '3' | 4 => '4'
  | 5 => '5' | 6 => '6' | 7 => '7' | 8 => '8' | 9 => '9'
  | _ => '*'

/-- Decimal digits of `n`, most significant first; `fuel ≥ n + 1` suffices. -/
def natCharsAux : Nat → Nat → List Char
  | 0, _ => []
  | fuel + 1, n =>
    if n < 10 then [digitCh n]
    else natCharsAux fuel (n / 10) ++ [digitCh (n % 10)]

/-- Decimal digit string of a natural number, as a character list. -/
def natChars (n : Nat) : List Char := natCharsAux (n + 1) n

/-- The label `f"V{p+1}-{v+1}"` the source attaches to vertex `v` (0-based) of
polyline `p` (0-based): indices are rendered 1-based. -/
def vlabel (p v : Nat) : String :=
  ⟨'V' :: (natChars (p + 1) ++ '-' :: natChars (v + 1))⟩

/-! ### The `vertex_labels` dict

Modelled as an association list in insertion order: Python dict assignment
updates the first (unique) occurrence of an existing key in place and appends a
fresh key at the end; iteration order is insertion order (which the
nearest-vertex scan below depends on). -/

/-- Python `d[k] = v` on an association list. -/
def insertAssoc : List (String × Vec2) → String → Vec2 → List (String × Vec2)
  | [], k, v => [(k, v)]
  | e :: rest, k, v =>
    if e.1 = k then (k, v) :: rest else e :: insertAssoc rest k v

/-- The inner loop of `map_points`'s vertex extraction: insert vertices of one
polyline (polyline index `p`, first vertex index `v`, both 0-based). -/
def insertRow (p : Nat) : Nat → List Vec2 → List (String × Vec2) → List (String × Vec2)
  | _, [], m => m
  | v, pt :: pts, m => insertRow p (v + 1) pts (insertAssoc m (vlabel p v) pt)

/-- The outer loop of `map_points`'s vertex extraction over all polylines. -/
def insertRows : Nat → List (List Vec2) → List (String × Vec2) → List (String × Vec2)
  | _, [], m => m
  | p, row :: rows, m => insertRows (p + 1) rows (insertRow p 0 row m)

/-- The `vertex_labels` dict after the vertex-extraction loop of `map_points`
(each polyline is its vertex list). -/
def buildVertexLabels (polylines : List (List Vec2)) : List (String × Vec2) :=
  insertRows 0 polylines []

/-- The labelled entries of one polyline, in order (plain list, for the
characterization of `buildVertexLabels`). -/
def rowEntries (p : Nat) : Nat → List Vec2 → List (String × Vec2)
  | _, [] => []
  | v, pt :: pts => (vlabel p v, pt) :: rowEntries p (v + 1) pts

/-- All labelled entries of all polylines, in order. -/
def flatEntriesFrom : Nat → List (List Vec2) → List (String × Vec2)
  | _, [] => []
  | p, row :: rows => rowEntries p 0 row ++ flatEntriesFrom (p + 1) rows

/-! ### Annotation-text association -/

/-- Position and content of a reference text entity. -/
structure TextEnt where
  pos : Vec2
  content : String
deriving DecidableEq, Repr

/-- Python `min(vertex_labels.items(), key=..., default=None)`: the first
entry of minimal distance to `p` in iteration order, `none` on an empty dict. -/
def argminEntry (p : Vec2) : List (String × Vec2) → Option (String × Vec2)
  | [] => none
  | e :: rest =>
    some (rest.foldl (fun best x => if dist2 p x.2 < dist2 p best.2 then x else best) e)

/-- One iteration of the text-association loop of `map_points`: find the vertex
label closest to the text's position, and if its (squared) distance is below
the (squared) threshold `5.0² = 25`, overwrite that label's position with the
text's position; otherwise leave the mapping untouched (the source only logs a
warning). -/
def associateText (m : List (String × Vec2)) (t : TextEnt) : List (String × Vec2) :=
  match argminEntry t.pos m with
  | none => m
  | some e => if dist2 t.pos e.2 < 25 then insertAssoc m e.1 t.pos else m

/-- The full text-association loop (a no-op when `text_entities` is empty, as
in the source's `if text_entities:` guard). -/
def applyTexts (m : List (String × Vec2)) (texts : List TextEnt) : List (String × Vec2) :=
  texts.foldl associateText m

/-! ### Matching COGO points -/

/-- A surveyed COGO point: number, rounded position, raw description. -/
structure CogoPoint where
  number : Nat
  pos : Vec2
  desc : String
deriving DecidableEq, Repr

/-- Python `.strip()`, at character level: drop leading and trailing
whitespace. -/
def stripChars (cs : List Char) : List Char :=
  ((cs.dropWhile Char.isWhitespace).reverse.dropWhile Char.isWhitespace).reverse

/-- Python `.upper()` on the ASCII characters the label data of this program
consists of. -/
def upperChar (c : Char) : Char :=
  if 'a' ≤ c ∧ c ≤ 'z' then Char.ofNat (c.toNat - 32) else c

/-- Label normalization `cogo['Description'].strip().upper()`, modelled on the
underlying character list. -/
def normalizeLabel (s : String) : String := ⟨(stripChars s.data).map upperChar⟩

/-- Python `set.add`: append only when absent (keeps first-insertion order for
counting; membership semantics are what matters). -/
def insertSet (s : List String) (x : String) : List String :=
  if x ∈ s then s else s ++ [x]

/-- One iteration of the COGO-matching loop of `map_points`, acting on the
accumulator `(real_points, ideal_points, missing_labels)`: an empty normalized
description is skipped (`continue`); a hit appends the surveyed position to
`real_points` and the looked-up ideal position to `ideal_points`; a miss adds
the label to `missing_labels`. -/
def matchStep (m : List (String × Vec2)) (acc : List Vec2 × List Vec2 × List String)
    (c : CogoPoint) : List Vec2 × List Vec2 × List String :=
  let l := normalizeLabel c.desc
  if l = "" then acc
  else
    match List.lookup l m with
    | some v => (acc.1 ++ [c.pos], acc.2.1 ++ [v], acc.2.2)
    | none => (acc.1, acc.2.1, insertSet acc.2.2 l)

/-- The COGO-matching loop of `map_points`. -/
def matchLoop (m : List (String × Vec2)) (cogo : List CogoPoint) :
    List Vec2 × List Vec2 × List String :=
  cogo.foldl (matchStep m) ([], [], [])

/-- The matched `(real, ideal)` pairs, in surveyed order (characterization of
the matching loop). -/
def matchedPairs (m : List (String × Vec2)) (cogo : List CogoPoint) :
    List (Vec2 × Vec2) :=
  cogo.filterMap (fun c =>
    let l := normalizeLabel c.desc
    if l = "" then none
    else (List.lookup l m).map (fun v => (c.pos, v)))

/-- The two `raise ValueError` sites inside `map_points`'s `try` block. -/
inductive MapError where
  | emptyReference
  | noValidPoints
deriving DecidableEq, Repr

/-- The `try` body of `map_points`: fail on an empty polyline list, build the
labelled-vertex dict, associate texts, match COGO points, fail if no point
matched, otherwise return `(real_points, ideal_points)` together with the
`missing_labels` set the source accumulates (and logs). -/
def mapPointsCore (cogo : List CogoPoint) (polylines : List (List Vec2))
    (texts : List TextEnt) : Except MapError (List Vec2 × List Vec2 × List String) :=
  if polylines = [] then Except.error MapError.emptyReference
  else
    let m := applyTexts (buildVertexLabels polylines) texts
    let res := matchLoop m cogo
    if res.1 = [] then Except.error MapError.noValidPoints
    else Except.ok res

/-- Function `map_points` as seen by its caller: the `except` handler turns any raised
error into the sentinel pair of empty arrays. -/
def map_points (cogo : List CogoPoint) (polylines : List (List Vec2))
    (texts : List TextEnt) : List Vec2 × List Vec2 :=
  match mapPointsCore cogo polylines texts with
  | Except.error _ => ([], [])
  | Except.ok r => (r.1, r.2.1)

/-! ### Outlier removal -/

/-- numpy boolean-mask indexing `xs[mask]`. -/
def maskFilter {α : Type} (mask : List Bool) (xs : List α) : List α :=
  (List.zip mask xs).filterMap (fun bx => if bx.1 then some bx.2 else none)

/-- The source's `remove_outliers(real_points, ideal_points)`. Here `ransac` stands
for fitting sklearn's `RANSACRegressor(min_samples=2, residual_threshold=0.5,
max_trials=100)` and reading `inlier_mask_`: `some mask` on a successful fit,
`none` when `fit` raises (no valid consensus set, or fewer than `min_samples`
rows) — the source's `except` handler then returns the input unchanged. -/
def remove_outliers (ransac : List Vec2 → List Vec2 → Option (List Bool))
    (real ideal : List Vec2) : List Vec2 × List Vec2 :=
  if real.length = 0 ∨ ideal.length = 0 then (real, ideal)
  else
    match ransac real ideal with
    | none => (real, ideal)
    | some mask => (maskFilter mask real, maskFilter mask ideal)

/-! ### Applying the transform -/

/-- The drawing loop of `main`: `transformed = R @ point + t` for each point,
in order. -/
def applyTransform (R : Mat2) (t : Vec2) (pts : List Vec2) : List Vec2 :=
  pts.map (fun p => Vec2.add (Mat2.mulVec R p) t)

/-- The computational core of `main` after data acquisition: map points, abort
(raise) when fewer than 2 matched, filter outliers, solve, and — only when a
transform was produced — apply it to `real_points` (the full matched set, not
the filtered one).  `none` embeds every path on which nothing is drawn. -/
def mainPipeline (svd : Mat2 → Mat2 × Mat2)
    (ransac : List Vec2 → List Vec2 → Option (List Bool))
    (cogo : List CogoPoint) (polylines : List (List Vec2)) (texts : List TextEnt) :
    Option (List Vec2) :=
  let ri := map_points cogo polylines texts
  if ri.1.length < 2 then none
  else
    let clean := remove_outliers ransac ri.1 ri.2
    match kabsch_transform svd clean.1 clean.2 with
    | none => none
    | some Rt => some (applyTransform Rt.1 Rt.2 ri.1)

/-- Outer product `q · pᵗ` of two 2-vectors, a 2×2 matrix. -/
def outerProd (q p : Vec2) : Mat2 := ⟨q.x * p.x, q.x * p.y, q.y * p.x, q.y * p.y⟩

/-- The solver as the SPEC describes it (§4.3 steps 1–8), written over a list of
correspondence pairs `(real, ideal)`: centroids, centering, cross-covariance as
a sum of outer products of centered pairs (ideal side as rows), SVD, candidate
rotation `U·Vᵗ`, reflection correction, translation `cI − R·cR`.  Stated
independently of `kabsch_transform` so that agreement between the two is a
theorem, not a definition. -/
def solve_spec (svd : Mat2 → Mat2 × Mat2) (pairs : List (Vec2 × Vec2)) :
    Option (Mat2 × Vec2) :=
  if pairs = [] then none
  else
    let cR := centroid (pairs.map Prod.fst)
    let cI := centroid (pairs.map Prod.snd)
    let centered := pairs.map (fun pr => (Vec2.sub pr.1 cR, Vec2.sub pr.2 cI))
    let H := (centered.map (fun pr => outerProd pr.2 pr.1)).foldr Mat2.add Mat2.zero
    let UVt := svd H
    let R0 := Mat2.mul UVt.1 UVt.2
    let R := if R0.det < 0 then Mat2.mul UVt.1 (Mat2.negLastRow UVt.2) else R0
    let t := Vec2.sub cI (Mat2.mulVec R cR)
    some (R, t)

/-! ## Helper lemmas -/

theorem maskFilter_sublist {α : Type} (mask : List Bool) (xs : List α) :
    List.Sublist (maskFilter mask xs) xs := by
  induction mask generalizing xs with
  | nil => simp [maskFilter]
  | cons b ms ih =>
    cases xs with
    | nil => simp [maskFilter]
    | cons x rest =>
      cases b with
      | false =>
        simpa [maskFilter, List.zip_cons_cons, List.filterMap_cons] using
          List.Sublist.cons x (ih rest)
      | true =>
        simpa [maskFilter, List.zip_cons_cons, List.filterMap_cons] using
          List.Sublist.cons₂ x (ih rest)

theorem Mat2.ext' (M N : Mat2) (ha : M.a = N.a) (hb : M.b = N.b) (hc : M.c = N.c)
    (hd : M.d = N.d) : M = N := by
  cases M
  cases N
  simp_all

theorem zipWith_eq_map_zip (f : Vec2 → Vec2 → ℚ) :
    ∀ ideal real : List Vec2,
      List.zipWith f ideal real = (real.zip ideal).map (fun pr => f pr.2 pr.1)
  | [], [] => rfl
  | [], _ :: _ => rfl
  | _ :: _, [] => rfl
  | q :: ideal, p :: real => by
    simp only [List.zipWith_cons_cons, List.zip_cons_cons, List.map_cons,
      zipWith_eq_map_zip f ideal real]

theorem foldr_add_a (l : List Mat2) :
    (l.foldr Mat2.add Mat2.zero).a = (l.map Mat2.a).sum := by
  induction l with
  | nil => rfl
  | cons M l ih => simp [Mat2.add, ih]

theorem foldr_add_b (l : List Mat2) :
    (l.foldr Mat2.add Mat2.zero).b = (l.map Mat2.b).sum := by
  induction l with
  | nil => rfl
  | cons M l ih => simp [Mat2.add, ih]

theorem foldr_add_c (l : List Mat2) :
    (l.foldr Mat2.add Mat2.zero).c = (l.map Mat2.c).sum := by
  induction l with
  | nil => rfl
  | cons M l ih => simp [Mat2.add, ih]

theorem foldr_add_d (l : List Mat2) :
    (l.foldr Mat2.add Mat2.zero).d = (l.map Mat2.d).sum := by
  induction l with
  | nil => rfl
  | cons M l ih => simp [Mat2.add, ih]

/-- The numpy matrix product `(ideal_c)ᵗ @ (real_c)` of the source equals the
spec's sum of outer products of centered pairs. -/
theorem crossCov_eq_spec (real ideal : List Vec2) (cR cI : Vec2) :
    crossCov real ideal cR cI =
      ((((real.zip ideal).map (fun pr => (Vec2.sub pr.1 cR, Vec2.sub pr.2 cI))).map
        (fun pr => outerProd pr.2 pr.1)).foldr Mat2.add Mat2.zero) := by
  refine Mat2.ext' _ _ ?_ ?_ ?_ ?_ <;>
  · simp only [crossCov, foldr_add_a, foldr_add_b, foldr_add_c, foldr_add_d,
      List.map_map, zipWith_eq_map_zip]
    congr 1

theorem Mat2.det_mul (M N : Mat2) : (M.mul N).det = M.det * N.det := by
  simp only [Mat2.mul, Mat2.det]
  ring

theorem Mat2.det_negLastRow (M : Mat2) : (M.negLastRow).det = -M.det := by
  simp only [Mat2.negLastRow, Mat2.det]
  ring

/-! ## Claims -/

/-- C8: `solve` (`kabsch_transform`) fails when the input pair list is empty —
the source raises `ValueError` on empty input arrays and its handler returns
`(None, None)`, so no transform is returned for an empty `real_points` or an
empty `ideal_points` (in particular for an empty pair list, where both are
empty). -/
theorem solve_empty_fails (svd : Mat2 → Mat2 × Mat2) (real ideal : List Vec2) :
    kabsch_transform svd [] ideal = none ∧ kabsch_transform svd real [] = none := by
  constructor <;> simp [kabsch_transform]

/-- C7: `buildIdealMapping` (`map_points`) with an empty reference list fails
with the empty-reference error: the `try` body raises at its first statement
(embedded as `Except.error MapError.emptyReference`), so matching never runs,
the caller receives the sentinel empty arrays, and the pipeline (`main`) aborts
before computing any transform. -/
theorem empty_reference_fails (cogo : List CogoPoint) (texts : List TextEnt) :
    mapPointsCore cogo [] texts = Except.error MapError.emptyReference ∧
    map_points cogo [] texts = ([], []) ∧
    ∀ (svd : Mat2 → Mat2 × Mat2) (ransac : List Vec2 → List Vec2 → Option (List Bool)),
      mainPipeline svd ransac cogo [] texts = none := by
  refine ⟨rfl, rfl, ?_⟩
  intro svd ransac
  simp [mainPipeline, map_points, mapPointsCore]

theorem zip_maskFilter {α β : Type} : ∀ (mask : List Bool) (xs : List α) (ys : List β),
    xs.length = ys.length →
    (maskFilter mask xs).zip (maskFilter mask ys) = maskFilter mask (xs.zip ys) := by
  intro mask
  induction mask with
  | nil => intro xs ys _; rfl
  | cons b ms ih =>
    intro xs ys hlen
    cases xs with
    | nil =>
      cases ys with
      | nil => rfl
      | cons y ys' => cases hlen
    | cons x xs' =>
      cases ys with
      | nil => cases hlen
      | cons y ys' =>
        have hlen' : xs'.length = ys'.length := by simpa using hlen
        cases b with
        | true =>
          show ((x :: maskFilter ms xs').zip (y :: maskFilter ms ys')) =
            (x, y) :: maskFilter ms (xs'.zip ys')
          rw [List.zip_cons_cons]
          exact congrArg (List.cons (x, y)) (ih xs' ys' hlen')
        | false =>
          show (maskFilter ms xs').zip (maskFilter ms ys') = maskFilter ms (xs'.zip ys')
          exact ih xs' ys' hlen'

/-- C4: for every outcome of the random sampling, the output of
`filterOutliers` (`remove_outliers`) is an order-preserving subset
(`List.Sublist`) of the input — componentwise and, on equal-length inputs, by
pair identity (the zipped output pairs form a sublist of the zipped input
pairs, so no pair is ever synthesized); when the RANSAC fit yields no mask
(sklearn's `fit` raises when it finds no valid consensus set, and also when
fewer than `min_samples = 2` rows are supplied), the original input is
returned unchanged. -/
theorem filterOutliers_subset_fallback (ransac : List Vec2 → List Vec2 → Option (List Bool))
    (real ideal : List Vec2) :
    List.Sublist (remove_outliers ransac real ideal).1 real ∧
    List.Sublist (remove_outliers ransac real ideal).2 ideal ∧
    (real.length = ideal.length →
      List.Sublist ((remove_outliers ransac real ideal).1.zip
        (remove_outliers ransac real ideal).2) (real.zip ideal)) ∧
    (ransac real ideal = none → remove_outliers ransac real ideal = (real, ideal)) ∧
    (real.length < 2 → ransac real ideal = none →
      remove_outliers ransac real ideal = (real, ideal)) := by
  have hnone : ransac real ideal = none → remove_outliers ransac real ideal = (real, ideal) := by
    intro h
    unfold remove_outliers
    split
    · rfl
    · rw [h]
  refine ⟨?_, ?_, ?_, hnone, fun _ h => hnone h⟩
  · unfold remove_outliers
    split
    · simp
    · cases h : ransac real ideal with
      | none => simp
      | some mask => simp [maskFilter_sublist]
  · unfold remove_outliers
    split
    · simp
    · cases h : ransac real ideal with
      | none => simp
      | some mask => simp [maskFilter_sublist]
  · intro hlen
    unfold remove_outliers
    split
    · exact List.Sublist.refl _
    · cases h : ransac real ideal with
      | none => exact List.Sublist.refl _
      | some mask =>
        show List.Sublist ((maskFilter mask real).zip (maskFilter mask ideal)) (real.zip ideal)
        rw [zip_maskFilter mask real ideal hlen]
        exact maskFilter_sublist mask (real.zip ideal)

/-- Witness for C4 at a concrete input: one pair (< 2), a raising fit. -/
theorem filterOutliers_subset_fallback_app :
    remove_outliers (fun _ _ => none) [⟨0, 0⟩] [⟨1, 1⟩] = ([⟨0, 0⟩], [⟨1, 1⟩]) :=
  (filterOutliers_subset_fallback (fun _ _ => none) [⟨0, 0⟩] [⟨1, 1⟩]).2.2.2.2
    (by decide) rfl

/-- C2: whenever `solve` (`kabsch_transform`) returns a rotation, its
determinant is exactly `+1` (exact arithmetic replaces the float `≈`):
provided the SVD factors are orthogonal — embedded as the hypothesis that
`det U · det Vᵗ = ±1` — the returned `R` has `det R = 1`, and when the
candidate `U·Vᵗ` has negative determinant the returned rotation is the
recomputed `U · (Vᵗ with its last row negated)`, so an improper (reflective)
matrix is never returned. -/
theorem solve_det_plus_one (svd : Mat2 → Mat2 × Mat2) (real ideal : List Vec2)
    (hdet : ∀ H : Mat2, ((svd H).1).det * ((svd H).2).det = 1 ∨
      ((svd H).1).det * ((svd H).2).det = -1)
    (R : Mat2) (t : Vec2) (h : kabsch_transform svd real ideal = some (R, t)) :
    R.det = 1 ∧
    ∀ H : Mat2, H = crossCov real ideal (centroid real) (centroid ideal) →
      (Mat2.mul (svd H).1 (svd H).2).det < 0 →
      R = Mat2.mul (svd H).1 (Mat2.negLastRow (svd H).2) := by
  simp only [kabsch_transform] at h
  split at h
  · exact absurd h (by simp)
  split at h
  · exact absurd h (by simp)
  set H0 := crossCov real ideal (centroid real) (centroid ideal) with hH0
  rcases hsvd : svd H0 with ⟨U, Vt⟩
  rw [hsvd] at h
  simp only [Option.some.injEq, Prod.mk.injEq] at h
  have hR : R = if (Mat2.mul U Vt).det < 0 then Mat2.mul U (Mat2.negLastRow Vt)
      else Mat2.mul U Vt := h.1.symm
  have huv := hdet H0
  rw [hsvd] at huv
  simp only at huv
  constructor
  · by_cases hneg : (Mat2.mul U Vt).det < 0
    · rw [hR, if_pos hneg]
      rw [Mat2.det_mul] at hneg ⊢
      rw [Mat2.det_negLastRow]
      rcases huv with h1 | h1
      · exact absurd hneg (by rw [h1]; norm_num)
      · rw [mul_neg, h1]; norm_num
    · rw [hR, if_neg hneg]
      rw [Mat2.det_mul] at hneg ⊢
      rcases huv with h1 | h1
      · exact h1
      · exact absurd (lt_of_le_of_lt (le_of_eq h1) (by norm_num)) hneg
  · intro H hH hneg
    rw [hH, hsvd] at hneg
    simp only at hneg
    rw [hH, hsvd]
    simp only
    rw [hR, if_pos hneg]

/-- Witness for C2 at a concrete input that forces the correction branch:
with SVD factors `U = [[0,1],[1,0]]` (a reflection, `det = −1`) and `Vᵗ = I`,
the candidate `U·Vᵗ` has determinant `−1`, and the returned rotation is
`[[0,−1],[1,0]]` with determinant `+1`. -/
theorem solve_det_plus_one_app :
    Mat2.det ⟨0, -1, 1, 0⟩ = 1 :=
  (solve_det_plus_one (fun _ => (⟨0, 1, 1, 0⟩, Mat2.id2)) [⟨0, 0⟩, ⟨2, 0⟩]
    [⟨0, 0⟩, ⟨0, 2⟩]
    (fun _ => Or.inr (by simp [Mat2.det, Mat2.id2]))
    ⟨0, -1, 1, 0⟩ ⟨0, 0⟩ (by norm_num [kabsch_transform, centroid, crossCov,
      Mat2.mul, Mat2.det, Mat2.id2, Mat2.negLastRow, Mat2.mulVec, Vec2.sub])).1

/-- C1: on every non-empty equal-length input, `solve` (`kabsch_transform`)
computes exactly the spec's steps — centroids `cR`, `cI`, cross-covariance
`H = (centered ideal)ᵗ · (centered real)`, SVD, candidate `R = U·Vᵗ` with
reflection correction, `t = cI − R·cR` — i.e. it agrees with `solve_spec`,
the solver transcribed from the spec's step list over the pair list; and the
returned transform maps real to ideal: `t = cI − R·cR`, so the transform
carries the real centroid onto the ideal centroid. -/
theorem solve_follows_spec_steps (svd : Mat2 → Mat2 × Mat2) (real ideal : List Vec2)
    (h1 : real ≠ []) (h2 : real.length = ideal.length) :
    kabsch_transform svd real ideal = solve_spec svd (real.zip ideal) ∧
    ∀ R t, kabsch_transform svd real ideal = some (R, t) →
      t = Vec2.sub (centroid ideal) (Mat2.mulVec R (centroid real)) ∧
      Vec2.add (Mat2.mulVec R (centroid real)) t = centroid ideal := by
  have hlr : real.length ≠ 0 := by simpa [List.length_eq_zero] using h1
  have hli : ideal.length ≠ 0 := by rw [← h2]; exact hlr
  have hpairs : real.zip ideal ≠ [] := by
    intro hz
    have : (real.zip ideal).length = 0 := by rw [hz]; rfl
    rw [List.length_zip, ← h2, min_self] at this
    exact hlr this
  have hfst : (real.zip ideal).map Prod.fst = real :=
    List.map_fst_zip real ideal (le_of_eq h2)
  have hsnd : (real.zip ideal).map Prod.snd = ideal :=
    List.map_snd_zip real ideal (le_of_eq h2.symm)
  constructor
  · simp only [kabsch_transform, solve_spec]
    rw [if_neg (show ¬(real.length = 0 ∨ ideal.length = 0) from by simp [hlr, hli]),
      if_neg (show ¬real.length ≠ ideal.length from by simp [h2]),
      if_neg hpairs, hfst, hsnd, ← crossCov_eq_spec]
  · intro R t h
    simp only [kabsch_transform] at h
    rw [if_neg (show ¬(real.length = 0 ∨ ideal.length = 0) from by simp [hlr, hli]),
      if_neg (show ¬real.length ≠ ideal.length from by simp [h2])] at h
    simp only [Option.some.injEq, Prod.mk.injEq] at h
    obtain ⟨hR, ht⟩ := h
    rw [hR] at ht
    refine ⟨ht.symm, ?_⟩
    rw [← ht]
    rcases Mat2.mulVec R (centroid real) with ⟨rx, ry⟩
    rcases centroid ideal with ⟨ix, iy⟩
    simp only [Vec2.add, Vec2.sub, Vec2.mk.injEq]
    constructor <;> ring

/-- Witness for C1 at a concrete non-empty equal-length input. -/
theorem solve_follows_spec_steps_app :
    kabsch_transform (fun _ => (Mat2.id2, Mat2.id2)) [⟨0, 0⟩, ⟨2, 0⟩] [⟨1, 1⟩, ⟨3, 1⟩] =
      solve_spec (fun _ => (Mat2.id2, Mat2.id2))
        ([⟨0, 0⟩, ⟨2, 0⟩].zip [⟨1, 1⟩, ⟨3, 1⟩]) :=
  (solve_follows_spec_steps (fun _ => (Mat2.id2, Mat2.id2)) [⟨0, 0⟩, ⟨2, 0⟩]
    [⟨1, 1⟩, ⟨3, 1⟩] (by decide) rfl).1

/-- C3 (counterexample): the transform is NOT applied to the full surveyed
set.  With one reference polyline `[(0,0),(10,0)]` and three surveyed points,
of which `"ZZZ"` matches no label, the drawn output has 2 points while the
surveyed input has 3 — `main` transforms `real_points` (the matched set), so
surveyed points dropped as unmatched are neither transformed nor drawn, and
the output count differs from the surveyed input count. -/
theorem apply_full_surveyed_cex :
    mainPipeline (fun _ => (Mat2.id2, Mat2.id2)) (fun _ _ => none)
      [⟨1, ⟨0, 0⟩, "V1-1"⟩, ⟨2, ⟨10, 0⟩, "V1-2"⟩, ⟨3, ⟨5, 5⟩, "ZZZ"⟩]
      [[⟨0, 0⟩, ⟨10, 0⟩]] [] = some [⟨0, 0⟩, ⟨10, 0⟩] ∧
    ([⟨1, ⟨0, 0⟩, "V1-1"⟩, ⟨2, ⟨10, 0⟩, "V1-2"⟩,
      (⟨3, ⟨5, 5⟩, "ZZZ"⟩ : CogoPoint)] : List CogoPoint).length = 3 := by
  have hmp : map_points
      [⟨1, ⟨0, 0⟩, "V1-1"⟩, ⟨2, ⟨10, 0⟩, "V1-2"⟩, ⟨3, ⟨5, 5⟩, "ZZZ"⟩]
      [[⟨0, 0⟩, ⟨10, 0⟩]] [] = ([⟨0, 0⟩, ⟨10, 0⟩], [⟨0, 0⟩, ⟨10, 0⟩]) := by decide
  refine ⟨?_, rfl⟩
  simp only [mainPipeline, hmp]
  norm_num [remove_outliers, kabsch_transform, centroid, crossCov, Mat2.mul,
    Mat2.det, Mat2.id2, Mat2.mulVec, Vec2.sub, Vec2.add, applyTransform]

/-- C3 (amended): the applicator is a pure map with
`result[i] = R·points[i] + t`, preserving count and order; `main` applies it
to the full MATCHED point set `real_points` returned by `map_points` (so
points excluded by the outlier filter are still transformed), and the output
has the same count and order as that matched set — not as the full surveyed
input, whose unmatched points are dropped before the transform. -/
theorem apply_transform_matched_set :
    (∀ (R : Mat2) (t : Vec2) (pts : List Vec2),
      (applyTransform R t pts).length = pts.length ∧
      ∀ i : Nat, (applyTransform R t pts)[i]? =
        (pts[i]?).map (fun p => Vec2.add (Mat2.mulVec R p) t)) ∧
    ∀ (svd : Mat2 → Mat2 × Mat2) (ransac : List Vec2 → List Vec2 → Option (List Bool))
      (cogo : List CogoPoint) (polylines : List (List Vec2)) (texts : List TextEnt)
      (out : List Vec2),
      mainPipeline svd ransac cogo polylines texts = some out →
      ∃ Rt : Mat2 × Vec2,
        kabsch_transform svd
          (remove_outliers ransac (map_points cogo polylines texts).1
            (map_points cogo polylines texts).2).1
          (remove_outliers ransac (map_points cogo polylines texts).1
            (map_points cogo polylines texts).2).2 = some Rt ∧
        out = applyTransform Rt.1 Rt.2 (map_points cogo polylines texts).1 ∧
        out.length = (map_points cogo polylines texts).1.length := by
  constructor
  · intro R t pts
    refine ⟨List.length_map _ _, fun i => ?_⟩
    simp [applyTransform]
  · intro svd ransac cogo polylines texts out h
    simp only [mainPipeline] at h
    split at h
    · exact absurd h (by simp)
    rcases hk : kabsch_transform svd
        (remove_outliers ransac (map_points cogo polylines texts).1
          (map_points cogo polylines texts).2).1
        (remove_outliers ransac (map_points cogo polylines texts).1
          (map_points cogo polylines texts).2).2 with _ | Rt
    · rw [hk] at h
      exact absurd h (by simp)
    · rw [hk] at h
      simp only [Option.some.injEq] at h
      exact ⟨Rt, rfl, h.symm, by rw [← h]; exact List.length_map _ _⟩

/-- Witness for the amended C3 at a concrete pipeline run. -/
theorem apply_transform_matched_set_app :
    ∃ Rt : Mat2 × Vec2,
      kabsch_transform (fun _ => (Mat2.id2, Mat2.id2))
        (remove_outliers (fun _ _ => none)
          (map_points [⟨1, ⟨0, 0⟩, "V1-1"⟩, ⟨2, ⟨10, 0⟩, "V1-2"⟩]
            [[⟨0, 0⟩, ⟨10, 0⟩]] []).1
          (map_points [⟨1, ⟨0, 0⟩, "V1-1"⟩, ⟨2, ⟨10, 0⟩, "V1-2"⟩]
            [[⟨0, 0⟩, ⟨10, 0⟩]] []).2).1
        (remove_outliers (fun _ _ => none)
          (map_points [⟨1, ⟨0, 0⟩, "V1-1"⟩, ⟨2, ⟨10, 0⟩, "V1-2"⟩]
            [[⟨0, 0⟩, ⟨10, 0⟩]] []).1
          (map_points [⟨1, ⟨0, 0⟩, "V1-1"⟩, ⟨2, ⟨10, 0⟩, "V1-2"⟩]
            [[⟨0, 0⟩, ⟨10, 0⟩]] []).2).2 = some Rt ∧
      [(⟨0, 0⟩ : Vec2), ⟨10, 0⟩] = applyTransform Rt.1 Rt.2
        (map_points [⟨1, ⟨0, 0⟩, "V1-1"⟩, ⟨2, ⟨10, 0⟩, "V1-2"⟩]
          [[⟨0, 0⟩, ⟨10, 0⟩]] []).1 ∧
      ([(⟨0, 0⟩ : Vec2), ⟨10, 0⟩]).length =
        (map_points [⟨1, ⟨0, 0⟩, "V1-1"⟩, ⟨2, ⟨10, 0⟩, "V1-2"⟩]
          [[⟨0, 0⟩, ⟨10, 0⟩]] []).1.length :=
  apply_transform_matched_set.2 (fun _ => (Mat2.id2, Mat2.id2)) (fun _ _ => none)
    [⟨1, ⟨0, 0⟩, "V1-1"⟩, ⟨2, ⟨10, 0⟩, "V1-2"⟩] [[⟨0, 0⟩, ⟨10, 0⟩]] []
    [⟨0, 0⟩, ⟨10, 0⟩]
    (by
      have hmp : map_points [⟨1, ⟨0, 0⟩, "V1-1"⟩, ⟨2, ⟨10, 0⟩, "V1-2"⟩]
          [[⟨0, 0⟩, ⟨10, 0⟩]] [] = ([⟨0, 0⟩, ⟨10, 0⟩], [⟨0, 0⟩, ⟨10, 0⟩]) := by decide
      simp only [mainPipeline, hmp]
      norm_num [remove_outliers, kabsch_transform, centroid, crossCov, Mat2.mul,
        Mat2.det, Mat2.id2, Mat2.mulVec, Vec2.sub, Vec2.add, applyTransform])

theorem matchStep_hit (m : List (String × Vec2)) (acc : List Vec2 × List Vec2 × List String)
    (c : CogoPoint) (v : Vec2) (h1 : normalizeLabel c.desc ≠ "")
    (h2 : List.lookup (normalizeLabel c.desc) m = some v) :
    matchStep m acc c = (acc.1 ++ [c.pos], acc.2.1 ++ [v], acc.2.2) := by
  simp only [matchStep]
  rw [if_neg h1, h2]

theorem matchStep_miss (m : List (String × Vec2)) (acc : List Vec2 × List Vec2 × List String)
    (c : CogoPoint) (h1 : normalizeLabel c.desc ≠ "")
    (h2 : List.lookup (normalizeLabel c.desc) m = none) :
    matchStep m acc c = (acc.1, acc.2.1, insertSet acc.2.2 (normalizeLabel c.desc)) := by
  simp only [matchStep]
  rw [if_neg h1, h2]

theorem matchStep_skip (m : List (String × Vec2)) (acc : List Vec2 × List Vec2 × List String)
    (c : CogoPoint) (h1 : normalizeLabel c.desc = "") : matchStep m acc c = acc := by
  simp only [matchStep]
  rw [if_pos h1]

theorem matchFold_characterization (m : List (String × Vec2)) :
    ∀ (cogo : List CogoPoint) (acc : List Vec2 × List Vec2 × List String),
      (cogo.foldl (matchStep m) acc).1 = acc.1 ++ (matchedPairs m cogo).map Prod.fst ∧
      (cogo.foldl (matchStep m) acc).2.1 = acc.2.1 ++ (matchedPairs m cogo).map Prod.snd := by
  intro cogo
  induction cogo with
  | nil => intro acc; simp [matchedPairs]
  | cons c rest ih =>
    intro acc
    rw [List.foldl_cons]
    by_cases h1 : normalizeLabel c.desc = ""
    · rw [matchStep_skip m acc c h1]
      have hp : matchedPairs m (c :: rest) = matchedPairs m rest := by
        simp [matchedPairs, List.filterMap_cons, h1]
      rw [hp]
      exact ih acc
    · cases h2 : List.lookup (normalizeLabel c.desc) m with
      | some v =>
        rw [matchStep_hit m acc c v h1 h2]
        have hp : matchedPairs m (c :: rest) = (c.pos, v) :: matchedPairs m rest := by
          simp [matchedPairs, List.filterMap_cons, h1, h2]
        rw [hp]
        refine ⟨?_, ?_⟩
        · rw [(ih _).1]
          simp
        · rw [(ih _).2]
          simp
      | none =>
        rw [matchStep_miss m acc c h1 h2]
        have hp : matchedPairs m (c :: rest) = matchedPairs m rest := by
          simp [matchedPairs, List.filterMap_cons, h1, h2]
        rw [hp]
        exact ih _

/-- C5: `matchCorrespondences` (the COGO-matching loop of `map_points`)
normalizes each surveyed label (strip + uppercase, via `normalizeLabel`) and
looks it up in the ideal mapping; a hit emits the pair
(surveyed position, ideal position), a (non-empty) miss adds the label to the
unmatched set and emits no pair, and a surveyed point with an empty normalized
label never yields a pair; in particular, 3 surveyed points of which exactly
one bears a label absent from the mapping produce exactly 2 pairs and 1
unmatched label. -/
theorem matchCorrespondences_behavior :
    (∀ (m : List (String × Vec2)) (acc : List Vec2 × List Vec2 × List String)
      (c : CogoPoint) (v : Vec2), normalizeLabel c.desc ≠ "" →
      List.lookup (normalizeLabel c.desc) m = some v →
      matchStep m acc c = (acc.1 ++ [c.pos], acc.2.1 ++ [v], acc.2.2)) ∧
    (∀ (m : List (String × Vec2)) (acc : List Vec2 × List Vec2 × List String)
      (c : CogoPoint), normalizeLabel c.desc ≠ "" →
      List.lookup (normalizeLabel c.desc) m = none →
      matchStep m acc c = (acc.1, acc.2.1, insertSet acc.2.2 (normalizeLabel c.desc))) ∧
    (∀ (m : List (String × Vec2)) (acc : List Vec2 × List Vec2 × List String)
      (c : CogoPoint), normalizeLabel c.desc = "" → matchStep m acc c = acc) ∧
    (∀ (m : List (String × Vec2)) (a b c : CogoPoint) (pa pb : Vec2),
      normalizeLabel a.desc ≠ "" → normalizeLabel b.desc ≠ "" →
      normalizeLabel c.desc ≠ "" →
      List.lookup (normalizeLabel a.desc) m = some pa →
      List.lookup (normalizeLabel b.desc) m = some pb →
      List.lookup (normalizeLabel c.desc) m = none →
      matchLoop m [a, b, c] = ([a.pos, b.pos], [pa, pb], [normalizeLabel c.desc]) ∧
      (matchLoop m [a, b, c]).1.length = 2 ∧
      (matchLoop m [a, b, c]).2.2.length = 1) := by
  refine ⟨matchStep_hit, matchStep_miss, matchStep_skip, ?_⟩
  intro m a b c pa pb ha hb hc ha' hb' hc'
  have heq : matchLoop m [a, b, c] = ([a.pos, b.pos], [pa, pb], [normalizeLabel c.desc]) := by
    show List.foldl (matchStep m) ([], [], []) [a, b, c] = _
    rw [List.foldl_cons, List.foldl_cons, List.foldl_cons, List.foldl_nil,
      matchStep_hit m _ a pa ha ha', matchStep_hit m _ b pb hb hb',
      matchStep_miss m _ c hc hc']
    simp [insertSet]
  exact ⟨heq, by simp [heq], by simp [heq]⟩

/-- Witness for C5: two labels present, one absent, over a concrete mapping. -/
theorem matchCorrespondences_behavior_app :
    matchLoop [("V1-1", ⟨0, 0⟩), ("V1-2", ⟨10, 0⟩)]
      [⟨1, ⟨1, 1⟩, " v1-1 "⟩, ⟨2, ⟨9, 0⟩, "V1-2"⟩, ⟨3, ⟨5, 5⟩, "ZZZ"⟩] =
      ([⟨1, 1⟩, ⟨9, 0⟩], [⟨0, 0⟩, ⟨10, 0⟩], ["ZZZ"]) :=
  (matchCorrespondences_behavior.2.2.2 [("V1-1", ⟨0, 0⟩), ("V1-2", ⟨10, 0⟩)]
    ⟨1, ⟨1, 1⟩, " v1-1 "⟩ ⟨2, ⟨9, 0⟩, "V1-2"⟩ ⟨3, ⟨5, 5⟩, "ZZZ"⟩ ⟨0, 0⟩ ⟨10, 0⟩
    (by decide) (by decide) (by decide) (by decide) (by decide) (by decide)).1

/-- C10: whenever `map_points` succeeds, the two returned arrays have equal
length and are the first and second projections of the matched-pair list: for
every index, `real[i]` is a surveyed point's position and `ideal[i]` is the
ideal position stored under that same point's normalized label, in surveyed
input order. -/
theorem map_points_pairing_invariant (cogo : List CogoPoint)
    (polylines : List (List Vec2)) (texts : List TextEnt)
    (r i : List Vec2) (missing : List String)
    (h : mapPointsCore cogo polylines texts = Except.ok (r, i, missing)) :
    r.length = i.length ∧
    r = (matchedPairs (applyTexts (buildVertexLabels polylines) texts) cogo).map Prod.fst ∧
    i = (matchedPairs (applyTexts (buildVertexLabels polylines) texts) cogo).map Prod.snd := by
  simp only [mapPointsCore] at h
  split at h
  · exact absurd h (by simp)
  split at h
  · exact absurd h (by simp)
  simp only [Except.ok.injEq] at h
  have h1 : (matchLoop (applyTexts (buildVertexLabels polylines) texts) cogo).1 = r := by
    rw [h]
  have h2 : (matchLoop (applyTexts (buildVertexLabels polylines) texts) cogo).2.1 = i := by
    rw [h]
  have hch := matchFold_characterization (applyTexts (buildVertexLabels polylines) texts)
    cogo ([], [], [])
  simp only [List.nil_append] at hch
  have hr : r = (matchedPairs (applyTexts (buildVertexLabels polylines) texts) cogo).map
      Prod.fst := by
    rw [← h1]
    exact hch.1
  have hi : i = (matchedPairs (applyTexts (buildVertexLabels polylines) texts) cogo).map
      Prod.snd := by
    rw [← h2]
    exact hch.2
  refine ⟨?_, hr, hi⟩
  rw [hr, hi]
  simp

/-- Witness for C10 at a concrete successful `map_points` run. -/
theorem map_points_pairing_invariant_app :
    ([(⟨1, 1⟩ : Vec2)]).length = ([(⟨0, 0⟩ : Vec2)]).length ∧
    [(⟨1, 1⟩ : Vec2)] = (matchedPairs
      (applyTexts (buildVertexLabels [[⟨0, 0⟩]]) []) [⟨1, ⟨1, 1⟩, "V1-1"⟩]).map Prod.fst ∧
    [(⟨0, 0⟩ : Vec2)] = (matchedPairs
      (applyTexts (buildVertexLabels [[⟨0, 0⟩]]) []) [⟨1, ⟨1, 1⟩, "V1-1"⟩]).map Prod.snd :=
  map_points_pairing_invariant [⟨1, ⟨1, 1⟩, "V1-1"⟩] [[⟨0, 0⟩]] []
    [⟨1, 1⟩] [⟨0, 0⟩] [] rfl

theorem argmin_foldl_spec (p : Vec2) (rest : List (String × Vec2)) :
    ∀ best : String × Vec2,
      (rest.foldl (fun best x => if dist2 p x.2 < dist2 p best.2 then x else best) best = best ∨
        rest.foldl (fun best x => if dist2 p x.2 < dist2 p best.2 then x else best) best ∈ rest) ∧
      dist2 p (rest.foldl (fun best x => if dist2 p x.2 < dist2 p best.2 then x else best) best).2 ≤
        dist2 p best.2 ∧
      ∀ x ∈ rest,
        dist2 p (rest.foldl (fun best x => if dist2 p x.2 < dist2 p best.2 then x else best) best).2 ≤
          dist2 p x.2 := by
  induction rest with
  | nil => intro best; simp
  | cons x rest ih =>
    intro best
    rw [List.foldl_cons]
    rcases ih (if dist2 p x.2 < dist2 p best.2 then x else best) with ⟨hmem, hle, hall⟩
    have hle' : dist2 p (if dist2 p x.2 < dist2 p best.2 then x else best).2 ≤ dist2 p best.2 := by
      split
      · exact le_of_lt (by assumption)
      · exact le_refl _
    have hlex : dist2 p (if dist2 p x.2 < dist2 p best.2 then x else best).2 ≤ dist2 p x.2 := by
      split
      · exact le_refl _
      · exact le_of_not_lt (by assumption)
    refine ⟨?_, le_trans hle hle', ?_⟩
    · rcases hmem with hmem | hmem
      · rw [hmem]
        split
        · exact Or.inr (List.mem_cons_self _ _)
        · exact Or.inl rfl
      · exact Or.inr (List.mem_cons_of_mem _ hmem)
    · intro y hy
      rcases List.mem_cons.1 hy with hy | hy
      · rw [hy]
        exact le_trans hle hlex
      · exact hall y hy

theorem argminEntry_mem_min (p : Vec2) (m : List (String × Vec2)) (e : String × Vec2)
    (h : argminEntry p m = some e) :
    e ∈ m ∧ ∀ x ∈ m, dist2 p e.2 ≤ dist2 p x.2 := by
  cases m with
  | nil => exact absurd h (by simp [argminEntry])
  | cons hd rest =>
    simp only [argminEntry, Option.some.injEq] at h
    rcases argmin_foldl_spec p rest hd with ⟨hmem, hle, hall⟩
    rw [h] at hmem hle hall
    constructor
    · rcases hmem with hmem | hmem
      · rw [hmem]; exact List.mem_cons_self _ _
      · exact List.mem_cons_of_mem _ hmem
    · intro x hx
      rcases List.mem_cons.1 hx with hx | hx
      · rw [hx]; exact hle
      · exact hall x hx

theorem lookup_cons_self (k : String) (v : Vec2) (l : List (String × Vec2)) :
    List.lookup k ((k, v) :: l) = some v := by
  simp [List.lookup]

theorem lookup_cons_ne (k' k : String) (v : Vec2) (l : List (String × Vec2))
    (h : k' ≠ k) : List.lookup k' ((k, v) :: l) = List.lookup k' l := by
  have hb : (k' == k) = false := beq_eq_false_iff_ne.mpr h
  simp [List.lookup, hb]

theorem insertAssoc_keys (m : List (String × Vec2)) (k : String) (v : Vec2)
    (h : k ∈ m.map Prod.fst) :
    (insertAssoc m k v).map Prod.fst = m.map Prod.fst := by
  induction m with
  | nil => cases h
  | cons e rest ih =>
    simp only [insertAssoc]
    by_cases he : e.1 = k
    · rw [if_pos he]
      simp [he]
    · rw [if_neg he]
      have h' : k ∈ rest.map Prod.fst := by
        rcases List.mem_cons.1 h with h | h
        · exact absurd h.symm he
        · exact h
      simp [ih h']

theorem lookup_insertAssoc_self (m : List (String × Vec2)) (k : String) (v : Vec2) :
    List.lookup k (insertAssoc m k v) = some v := by
  induction m with
  | nil => simp [insertAssoc, List.lookup]
  | cons e rest ih =>
    simp only [insertAssoc]
    by_cases he : e.1 = k
    · rw [if_pos he]
      exact lookup_cons_self k v rest
    · rw [if_neg he]
      rcases e with ⟨ek, ev⟩
      rw [lookup_cons_ne k ek ev _ (fun hkk => he hkk.symm)]
      exact ih

theorem lookup_insertAssoc_other (m : List (String × Vec2)) (k k' : String) (v : Vec2)
    (h : k' ≠ k) : List.lookup k' (insertAssoc m k v) = List.lookup k' m := by
  induction m with
  | nil =>
    have hb : (k' == k) = false := beq_eq_false_iff_ne.mpr h
    simp [insertAssoc, List.lookup, hb]
  | cons e rest ih =>
    simp only [insertAssoc]
    rcases e with ⟨ek, ev⟩
    by_cases he : ek = k
    · rw [if_pos he]
      subst he
      rw [lookup_cons_ne k' ek v rest h, lookup_cons_ne k' ek ev rest h]
    · rw [if_neg he]
      by_cases hke : k' = ek
      · rw [hke, lookup_cons_self, lookup_cons_self]
      · rw [lookup_cons_ne k' ek ev _ hke, lookup_cons_ne k' ek ev _ hke]
        exact ih

/-- C6: for each annotation text, the scan over all currently-labelled ideal
positions finds a closest entry by Euclidean distance (squared distances and
the squared threshold `25 = 5.0²` decide the same comparisons); when the
nearest distance is below the threshold, exactly that label's position is
overwritten with the text's position — the label set is unchanged, the matched
label now maps to the text position, and every other label's binding is
untouched; when it is not below the threshold, the mapping is returned
entirely unchanged (the annotation is only reported). -/
theorem associateText_nearest_refines (m : List (String × Vec2)) (t : TextEnt)
    (e : String × Vec2) (h : argminEntry t.pos m = some e) :
    (e ∈ m ∧ ∀ x ∈ m, dist2 t.pos e.2 ≤ dist2 t.pos x.2) ∧
    (dist2 t.pos e.2 < 25 →
      associateText m t = insertAssoc m e.1 t.pos ∧
      (insertAssoc m e.1 t.pos).map Prod.fst = m.map Prod.fst ∧
      List.lookup e.1 (insertAssoc m e.1 t.pos) = some t.pos ∧
      ∀ k, k ≠ e.1 → List.lookup k (insertAssoc m e.1 t.pos) = List.lookup k m) ∧
    (¬ dist2 t.pos e.2 < 25 → associateText m t = m) := by
  have hm := argminEntry_mem_min t.pos m e h
  refine ⟨hm, ?_, ?_⟩
  · intro hlt
    have hkey : e.1 ∈ m.map Prod.fst := List.mem_map_of_mem Prod.fst hm.1
    refine ⟨?_, insertAssoc_keys m e.1 t.pos hkey,
      lookup_insertAssoc_self m e.1 t.pos,
      fun k hk => lookup_insertAssoc_other m e.1 k t.pos hk⟩
    simp only [associateText, h]
    rw [if_pos hlt]
  · intro hge
    simp only [associateText, h]
    rw [if_neg hge]

/-- Witness for C6: the text at `(9,1)` is nearest to `V1-2 = (10,0)` (squared
distance `2 < 25`), so that label's position is overwritten. -/
theorem associateText_nearest_refines_app :
    associateText [("V1-1", ⟨0, 0⟩), ("V1-2", ⟨10, 0⟩)] ⟨⟨9, 1⟩, "note"⟩ =
      insertAssoc [("V1-1", ⟨0, 0⟩), ("V1-2", ⟨10, 0⟩)] "V1-2" ⟨9, 1⟩ :=
  ((associateText_nearest_refines [("V1-1", ⟨0, 0⟩), ("V1-2", ⟨10, 0⟩)]
    ⟨⟨9, 1⟩, "note"⟩ ("V1-2", ⟨10, 0⟩)
    (by norm_num [argminEntry, dist2])).2.1
    (by norm_num [dist2])).1

/-! ### Injectivity of the label format -/

/-- Numeric value of a decimal digit character (proof-side inverse of
`digitCh`). -/
def digitVal (c : Char) : Nat := c.toNat - 48

/-- Value of a most-significant-first decimal digit string (proof-side inverse
of `natChars`). -/
def charsVal (cs : List Char) : Nat := cs.foldl (fun acc c => acc * 10 + digitVal c) 0

theorem digitVal_digitCh : ∀ n < 10, digitVal (digitCh n) = n := by decide

theorem digitCh_ne_dash (n : Nat) : digitCh n ≠ '-' := by
  rcases n with _ | _ | _ | _ | _ | _ | _ | _ | _ | _ | n
  case succ => exact (by decide : ('*' : Char) ≠ '-')
  all_goals decide

theorem charsVal_append_digit (cs : List Char) (c : Char) :
    charsVal (cs ++ [c]) = charsVal cs * 10 + digitVal c := by
  simp [charsVal, List.foldl_append]

theorem charsVal_natCharsAux : ∀ (fuel n : Nat), n < fuel →
    charsVal (natCharsAux fuel n) = n := by
  intro fuel
  induction fuel with
  | zero => intro n hn; exact absurd hn (Nat.not_lt_zero n)
  | succ fuel ih =>
    intro n hn
    by_cases h10 : n < 10
    · simp only [natCharsAux, if_pos h10]
      simp [charsVal, digitVal_digitCh n h10]
    · simp only [natCharsAux, if_neg h10]
      rw [charsVal_append_digit, ih (n / 10) (by omega),
        digitVal_digitCh (n % 10) (Nat.mod_lt n (by omega))]
      omega

theorem natChars_inj (m n : Nat) (h : natChars m = natChars n) : m = n := by
  have hm := charsVal_natCharsAux (m + 1) m (Nat.lt_succ_self m)
  have hn := charsVal_natCharsAux (n + 1) n (Nat.lt_succ_self n)
  rw [← hm, ← hn]
  simp only [natChars] at h
  rw [h]

theorem natCharsAux_ne_dash : ∀ (fuel n : Nat) (c : Char),
    c ∈ natCharsAux fuel n → c ≠ '-' := by
  intro fuel
  induction fuel with
  | zero => intro n c hc; cases hc
  | succ fuel ih =>
    intro n c hc
    by_cases h10 : n < 10
    · simp only [natCharsAux, if_pos h10, List.mem_singleton] at hc
      rw [hc]
      exact digitCh_ne_dash n
    · simp only [natCharsAux, if_neg h10, List.mem_append, List.mem_singleton] at hc
      rcases hc with hc | hc
      · exact ih (n / 10) c hc
      · rw [hc]
        exact digitCh_ne_dash (n % 10)

theorem dash_split_inj : ∀ (a₁ a₂ b₁ b₂ : List Char), '-' ∉ a₁ → '-' ∉ a₂ →
    a₁ ++ '-' :: b₁ = a₂ ++ '-' :: b₂ → a₁ = a₂ ∧ b₁ = b₂ := by
  intro a₁
  induction a₁ with
  | nil =>
    intro a₂ b₁ b₂ _ ha₂ h
    cases a₂ with
    | nil =>
      simp only [List.nil_append, List.cons.injEq] at h
      exact ⟨rfl, h.2⟩
    | cons y s =>
      simp only [List.nil_append, List.cons_append, List.cons.injEq] at h
      exact absurd (h.1 ▸ List.mem_cons_self y s) ha₂
  | cons x t ih =>
    intro a₂ b₁ b₂ ha₁ ha₂ h
    cases a₂ with
    | nil =>
      simp only [List.cons_append, List.nil_append, List.cons.injEq] at h
      exact absurd (h.1 ▸ List.mem_cons_self x t) ha₁
    | cons y s =>
      simp only [List.cons_append, List.cons.injEq] at h
      have ht := ih s b₁ b₂ (fun hm => ha₁ (List.mem_cons_of_mem x hm))
        (fun hm => ha₂ (List.mem_cons_of_mem y hm)) h.2
      exact ⟨by rw [h.1, ht.1], ht.2⟩

theorem vlabel_inj (p₁ v₁ p₂ v₂ : Nat) (h : vlabel p₁ v₁ = vlabel p₂ v₂) :
    p₁ = p₂ ∧ v₁ = v₂ := by
  have hd := congrArg String.data h
  simp only [vlabel, List.cons.injEq, true_and] at hd
  replace h := hd
  have hsplit := dash_split_inj (natChars (p₁ + 1)) (natChars (p₂ + 1))
    (natChars (v₁ + 1)) (natChars (v₂ + 1))
    (fun hm => natCharsAux_ne_dash _ _ '-' hm rfl)
    (fun hm => natCharsAux_ne_dash _ _ '-' hm rfl) h
  have hp := natChars_inj _ _ hsplit.1
  have hv := natChars_inj _ _ hsplit.2
  omega

theorem insertAssoc_fresh (m : List (String × Vec2)) (k : String) (v : Vec2)
    (h : k ∉ m.map Prod.fst) : insertAssoc m k v = m ++ [(k, v)] := by
  induction m with
  | nil => rfl
  | cons e rest ih =>
    simp only [List.map_cons, List.mem_cons, not_or] at h
    simp only [insertAssoc]
    rw [if_neg (show ¬e.1 = k from fun he => h.1 he.symm), List.cons_append]
    exact congrArg (List.cons e) (ih h.2)

theorem keys_rowEntries (p : Nat) : ∀ (row : List Vec2) (v0 : Nat) (k : String),
    k ∈ (rowEntries p v0 row).map Prod.fst → ∃ i, i < row.length ∧ k = vlabel p (v0 + i) := by
  intro row
  induction row with
  | nil => intro v0 k hk; cases hk
  | cons pt pts ih =>
    intro v0 k hk
    simp only [rowEntries, List.map_cons, List.mem_cons] at hk
    rcases hk with hk | hk
    · exact ⟨0, by simp, by simpa using hk⟩
    · rcases ih (v0 + 1) k hk with ⟨i, hi, hke⟩
      exact ⟨i + 1, by simpa using hi, by rw [hke]; congr 1; omega⟩

theorem insertRow_fresh (p : Nat) : ∀ (row : List Vec2) (v0 : Nat) (m : List (String × Vec2)),
    (∀ i, i < row.length → vlabel p (v0 + i) ∉ m.map Prod.fst) →
    insertRow p v0 row m = m ++ rowEntries p v0 row := by
  intro row
  induction row with
  | nil => intro v0 m _; simp [insertRow, rowEntries]
  | cons pt pts ih =>
    intro v0 m hfresh
    have h0 : vlabel p v0 ∉ m.map Prod.fst := by
      have := hfresh 0 (by simp)
      simpa using this
    simp only [insertRow, insertAssoc_fresh m (vlabel p v0) pt h0]
    rw [ih (v0 + 1) (m ++ [(vlabel p v0, pt)]) ?_]
    · simp [rowEntries]
    · intro i hi
      simp only [List.map_append, List.mem_append, not_or]
      constructor
      · have := hfresh (i + 1) (by simpa using hi)
        have harith : v0 + (i + 1) = v0 + 1 + i := by omega
        rw [harith] at this
        exact this
      · simp only [List.map_cons, List.map_nil, List.mem_singleton]
        intro hcontra
        have := (vlabel_inj _ _ _ _ hcontra).2
        omega

theorem insertRows_fresh : ∀ (rows : List (List Vec2)) (p0 : Nat) (m : List (String × Vec2)),
    (∀ j v, vlabel (p0 + j) v ∉ m.map Prod.fst) →
    insertRows p0 rows m = m ++ flatEntriesFrom p0 rows := by
  intro rows
  induction rows with
  | nil => intro p0 m _; simp [insertRows, flatEntriesFrom]
  | cons row rest ih =>
    intro p0 m hfresh
    simp only [insertRows]
    rw [insertRow_fresh p0 row 0 m ?_]
    · rw [ih (p0 + 1) (m ++ rowEntries p0 0 row) ?_]
      · simp [flatEntriesFrom]
      · intro j v
        simp only [List.map_append, List.mem_append, not_or]
        refine ⟨?_, ?_⟩
        · have := hfresh (1 + j) v
          have harith : p0 + (1 + j) = p0 + 1 + j := by omega
          rw [harith] at this
          exact this
        · intro hcontra
          rcases keys_rowEntries p0 row 0 _ hcontra with ⟨i, _, hke⟩
          have := (vlabel_inj _ _ _ _ hke).1
          omega
    · intro i _
      have := hfresh 0 (0 + i)
      simpa using this

/-- The `vertex_labels` dict built by the source's nested loop is exactly the
in-order list of labelled vertices: labels `V{p+1}-{v+1}` never collide
(by `vlabel_inj`), so every dict insertion appends a fresh key. -/
theorem buildVertexLabels_eq (polylines : List (List Vec2)) :
    buildVertexLabels polylines = flatEntriesFrom 0 polylines := by
  have h := insertRows_fresh polylines 0 [] (by simp)
  simpa [buildVertexLabels] using h

theorem lookup_append_some (k : String) (v : Vec2) :
    ∀ (l₁ l₂ : List (String × Vec2)), List.lookup k l₁ = some v →
      List.lookup k (l₁ ++ l₂) = some v := by
  intro l₁
  induction l₁ with
  | nil => intro l₂ h; cases h
  | cons e rest ih =>
    intro l₂ h
    rcases e with ⟨ek, ev⟩
    by_cases hk : k = ek
    · subst hk
      rw [lookup_cons_self] at h
      rw [List.cons_append, lookup_cons_self]
      exact h
    · rw [lookup_cons_ne k ek ev rest hk] at h
      rw [List.cons_append, lookup_cons_ne k ek ev _ hk]
      exact ih l₂ h

theorem lookup_append_none (k : String) :
    ∀ (l₁ l₂ : List (String × Vec2)), List.lookup k l₁ = none →
      List.lookup k (l₁ ++ l₂) = List.lookup k l₂ := by
  intro l₁
  induction l₁ with
  | nil => intro l₂ _; rfl
  | cons e rest ih =>
    intro l₂ h
    rcases e with ⟨ek, ev⟩
    by_cases hk : k = ek
    · subst hk
      rw [lookup_cons_self] at h
      cases h
    · rw [lookup_cons_ne k ek ev rest hk] at h
      rw [List.cons_append, lookup_cons_ne k ek ev _ hk]
      exact ih l₂ h

theorem lookup_rowEntries_hit (p : Nat) : ∀ (row : List Vec2) (v0 v : Nat) (pt : Vec2),
    row[v]? = some pt →
    List.lookup (vlabel p (v0 + v)) (rowEntries p v0 row) = some pt := by
  intro row
  induction row with
  | nil => intro v0 v pt h; cases h
  | cons q pts ih =>
    intro v0 v pt h
    cases v with
    | zero =>
      simp only [List.getElem?_cons_zero, Option.some.injEq] at h
      simp only [rowEntries, Nat.add_zero]
      rw [lookup_cons_self]
      rw [h]
    | succ w =>
      simp only [List.getElem?_cons_succ] at h
      simp only [rowEntries]
      rw [lookup_cons_ne _ _ _ _ (fun hc => by
        have := (vlabel_inj _ _ _ _ hc).2
        omega)]
      have := ih (v0 + 1) w pt h
      have harith : v0 + 1 + w = v0 + (w + 1) := by omega
      rw [harith] at this
      exact this

theorem lookup_rowEntries_ne (p p' v' : Nat) (hp : p' ≠ p) :
    ∀ (row : List Vec2) (v0 : Nat),
      List.lookup (vlabel p' v') (rowEntries p v0 row) = none := by
  intro row
  induction row with
  | nil => intro v0; rfl
  | cons q pts ih =>
    intro v0
    simp only [rowEntries]
    rw [lookup_cons_ne _ _ _ _ (fun hc => hp (vlabel_inj _ _ _ _ hc).1)]
    exact ih (v0 + 1)

theorem lookup_flat : ∀ (rows : List (List Vec2)) (p0 pi v : Nat)
    (row : List Vec2) (pt : Vec2), rows[pi]? = some row → row[v]? = some pt →
    List.lookup (vlabel (p0 + pi) v) (flatEntriesFrom p0 rows) = some pt := by
  intro rows
  induction rows with
  | nil => intro p0 pi v row pt h; cases h
  | cons r rs ih =>
    intro p0 pi v row pt hrow hpt
    cases pi with
    | zero =>
      simp only [List.getElem?_cons_zero, Option.some.injEq] at hrow
      subst hrow
      simp only [flatEntriesFrom, Nat.add_zero]
      exact lookup_append_some _ _ _ _ (by
        have := lookup_rowEntries_hit p0 r 0 v pt hpt
        simpa using this)
    | succ q =>
      simp only [List.getElem?_cons_succ] at hrow
      simp only [flatEntriesFrom]
      rw [lookup_append_none _ _ _ (lookup_rowEntries_ne p0 (p0 + (q + 1)) v
        (by omega) r 0)]
      have := ih (p0 + 1) q v row pt hrow hpt
      have harith : p0 + 1 + q = p0 + (q + 1) := by omega
      rw [harith] at this
      exact this

/-- C9: `buildIdealMapping` (the vertex-extraction loop of `map_points`)
inserts, for every polyline with 0-based index `p` and every vertex with
0-based index `v`, the label `"V{p+1}-{v+1}"` (1-based rendering) bound to
that vertex's position: the built dict is exactly the in-order list of these
bindings, and looking up the label of any existing vertex yields that vertex's
position.  (Annotation texts may later refine positions, never labels —
see the `associateText` theorem.) -/
theorem buildIdealMapping_labels (polylines : List (List Vec2)) (p v : Nat)
    (row : List Vec2) (pt : Vec2)
    (hrow : polylines[p]? = some row) (hpt : row[v]? = some pt) :
    buildVertexLabels polylines = flatEntriesFrom 0 polylines ∧
    List.lookup (vlabel p v) (buildVertexLabels polylines) = some pt := by
  refine ⟨buildVertexLabels_eq polylines, ?_⟩
  rw [buildVertexLabels_eq polylines]
  have := lookup_flat polylines 0 p v row pt hrow hpt
  simpa using this

/-- Witness for C9: second polyline, first vertex, label `"V2-1"`. -/
theorem buildIdealMapping_labels_app :
    buildVertexLabels [[⟨0, 0⟩, ⟨1, 0⟩], [⟨2, 2⟩]] =
      flatEntriesFrom 0 [[⟨0, 0⟩, ⟨1, 0⟩], [⟨2, 2⟩]] ∧
    List.lookup (vlabel 1 0) (buildVertexLabels [[⟨0, 0⟩, ⟨1, 0⟩], [⟨2, 2⟩]]) =
      some ⟨2, 2⟩ :=
  buildIdealMapping_labels [[⟨0, 0⟩, ⟨1, 0⟩], [⟨2, 2⟩]] 1 0 [⟨2, 2⟩] ⟨2, 2⟩
    (by decide) (by decide)

end Reconstrucao
